import Mathlib

/-!
Formal model of the FlowRunner automation replay engine.

Shallow embedding of the repository sources:
  - src/content/executor.js  : replay runner (executeSteps), selector
    resolution (findElement), step handlers (handleWaitForElement).
  - src/lib/parser.js        : RecorderParser (parse / validate / transform /
    transformStep / normalizeSelectors / extractStartUrl).
  - src/lib/storage.js       : StorageManager.addLog, setTaskSchedule.
  - src/lib/types.js         : DefaultSettings.

Modelling conventions:
  - JavaScript values reachable from JSON.parse are the inductive JsValue
    (null, booleans, numbers, strings, arrays, objects).  JSON numbers in
    this repository are only integers (indices, timeouts), so num carries
    an Int.
  - Property reads return Option JsValue, with none standing for
    undefined.  Reading a property of null throws a TypeError; this is the
    Except layer of getPropE.  Nothing in the repository distinguishes a
    property that is absent from one stored as undefined, so an assignment
    of undefined is modelled as not adding the key.
  - Thrown exceptions are Except.error carrying the message.
  - Asynchrony is sequentialized: awaits inside one run happen in program
    order (the executor is a single sequential coroutine), so the run loop
    is a plain recursive function.  Timing is modelled by counting polls
    and by a trace of events (step executions and inter-step delays).
  - chrome.* calls (messaging, alarms, storage) are the external
    collaborators: storage state and the clock are passed in explicitly,
    and the alarm created by setTaskSchedule is returned as data.
-/

namespace FlowRunner

/-- JavaScript values as produced by JSON.parse. -/
inductive JsValue where
  | null : JsValue
  | bool (b : Bool) : JsValue
  | num (n : Int) : JsValue
  | str (s : String) : JsValue
  | arr (xs : List JsValue) : JsValue
  | obj (fields : List (String × JsValue)) : JsValue

/-- A JavaScript object, as a key-value association list (later keys are
never duplicated: setProp replaces in place). -/
abbrev Obj := List (String × JsValue)

/-- JavaScript truthiness: null, false, 0 and the empty string are falsy,
everything else (including empty arrays and objects) is truthy. -/
def truthy : JsValue → Bool
  | .null => false
  | .bool b => b
  | .num n => n != 0
  | .str s => s != ""
  | .arr _ => true
  | .obj _ => true

/-- Truthiness of a property read: undefined is falsy. -/
def truthyOpt : Option JsValue → Bool
  | none => false
  | some v => truthy v

/-- Property lookup on an object association list. -/
def lookupProp : Obj → String → Option JsValue
  | [], _ => none
  | (k, v) :: rest, key => if k = key then some v else lookupProp rest key

/-- Property read, `v[key]`, returning none for undefined.  Reading a
property of a non-object primitive yields undefined (boxing); arrays have
no own string-keyed properties relevant here. -/
def getProp : JsValue → String → Option JsValue
  | .obj fields, key => lookupProp fields key
  | _, _ => none

/-- Property read that throws on null, as `null.key` does in JavaScript. -/
def getPropE : JsValue → String → Except String (Option JsValue)
  | .null, _ => .error "TypeError: Cannot read properties of null"
  | v, key => .ok (getProp v key)

/-- Property assignment `o[key] = v`: replace an existing key in place,
else append. -/
def setProp (o : Obj) (key : String) (v : JsValue) : Obj :=
  match o with
  | [] => [(key, v)]
  | (k, w) :: rest => if k = key then (k, v) :: rest else (k, w) :: setProp rest key v

/-- Assignment of a possibly-undefined value: assigning undefined is
modelled as not adding the key (no code in the repository distinguishes
the two). -/
def assignOpt (o : Obj) (key : String) (v : Option JsValue) : Obj :=
  match v with
  | none => o
  | some v => setProp o key v

/-! ## Replay runner: executeSteps (src/content/executor.js lines 49-136)

The interpreter call `executeStep(step)` (dispatch on step.type, DOM side
effects) is abstracted by the per-step outcome: each step either returns
normally or throws an Error with a message.  A run is therefore driven by
the list of these outcomes in step order.  The chrome.runtime messaging
side channel and console logging carry no result data and are omitted. -/

/-- Outcome of `await executeStep(step)` for one step: normal return or a
thrown Error with a message. -/
inductive StepResult where
  | ok : StepResult
  | err (msg : String) : StepResult
deriving DecidableEq, Repr

/-- Observable events of a run, in order: execution of step i, and one
inter-step pacing delay (`await delay(Config.stepDelay)`). -/
inductive Event where
  | exec (i : Nat) : Event
  | stepDelay : Event
deriving DecidableEq, Repr

/-- The default configuration of the executor (executor.js lines 24-28). -/
def Config.stepDelay : Nat := 500

/-- Element wait timeout default, ms (executor.js line 26). -/
def Config.elementTimeout : Nat := 10000

def isOk : StepResult → Bool
  | .ok => true
  | .err _ => false

def isErr : StepResult → Bool
  | .ok => false
  | .err _ => true

/-- State accumulated by the for-loop of executeSteps, plus the event
trace (execution and delay events in chronological order). -/
structure LoopState where
  completed : Nat
  lastError : Option String
  hasFailedSteps : Bool
  trace : List Event
deriving DecidableEq, Repr

/-- The for-loop of executeSteps (lines 58-83), at step index i with the
given step outcomes remaining.  On success completedSteps increments and,
when the step is not the last, the pacing delay runs; on failure under the
continue policy the error is recorded and the loop continues immediately
(the `continue` statement skips the delay); otherwise the loop breaks. -/
def execLoop (policy : String) (i : Nat) : List StepResult → LoopState
  | [] => ⟨0, none, false, []⟩
  | r :: rest =>
    match r with
    | .ok =>
      let s := execLoop policy (i + 1) rest
      let evs := if rest.isEmpty then [Event.exec i] else [Event.exec i, Event.stepDelay]
      ⟨s.completed + 1, s.lastError, s.hasFailedSteps, evs ++ s.trace⟩
    | .err msg =>
      if policy = "continue" then
        let s := execLoop policy (i + 1) rest
        let last := match s.lastError with
          | some m => some m
          | none => some msg
        ⟨s.completed, last, true, Event.exec i :: s.trace⟩
      else
        ⟨0, some msg, false, [Event.exec i]⟩

/-- RunOutcome returned by executeSteps (lines 98-105). -/
structure RunOutcome where
  success : Bool
  status : String
  completedSteps : Nat
  totalSteps : Nat
  message : String
deriving DecidableEq, Repr

/-- executeSteps (executor.js lines 49-136): run the loop, then compute
the final status: failed when an error was recorded under the stop
policy, partial when some step failed under continue, partial defensively
when fewer steps completed than exist, else success. -/
def executeSteps (steps : List StepResult) (policy : String := "stop") : RunOutcome :=
  let s := execLoop policy 0 steps
  let status :=
    if s.lastError.isSome && policy == "stop" then "failed"
    else if s.hasFailedSteps then "partial"
    else if s.completed < steps.length then "partial"
    else "success"
  { success := status == "success"
    status := status
    completedSteps := s.completed
    totalSteps := steps.length
    message := match s.lastError with
      | some m => m
      | none => "执行完成" }

/-- The chronological event trace of a run. -/
def execTrace (steps : List StepResult) (policy : String) : List Event :=
  (execLoop policy 0 steps).trace

/-- Indices of the steps actually executed, in order, read off a trace. -/
def execIndices : List Event → List Nat
  | [] => []
  | .exec i :: t => i :: execIndices t
  | .stepDelay :: t => execIndices t

/-- Number of inter-step pacing delays in a trace. -/
def countDelays : List Event → Nat
  | [] => 0
  | .exec _ :: t => countDelays t
  | .stepDelay :: t => countDelays t + 1

/-- Index of the first failing step, if any. -/
def firstFailIdx : List StepResult → Option Nat
  | [] => none
  | r :: rest =>
    if isErr r then some 0
    else (firstFailIdx rest).map (· + 1)

/-! ## Selector resolution: findElement (executor.js lines 312-363)

A selector group as the executor receives it is either a bare descriptor
string or an array of alternative descriptor strings.  The live document
is external: the per-descriptor query (strategy dispatch on the
`xpath/` / `aria/` / `pierce/` prefixes and the DOM queries, lines
326-349) is abstracted as an environment mapping a descriptor to either a
thrown error or an optional matched element (elements are identified by
Nat).  The environment is indexed by the poll number so the document may
change between polls. -/

/-- One selector group of the message payload: a bare string or an array
of alternatives. -/
inductive SelGroup where
  | single (s : String) : SelGroup
  | group (alts : List String) : SelGroup
deriving DecidableEq, Repr

/-- Line 321: `Array.isArray(selectorGroup) ? selectorGroup[0] : selectorGroup`.
For an empty array, `[0]` is undefined; the subsequent
`selector.startsWith` then throws, which the surrounding catch absorbs,
so none is returned here and the group is skipped. -/
def primaryAlt : SelGroup → Option String
  | .single s => some s
  | .group [] => none
  | .group (a :: _) => some a

/-- Evaluation of one descriptor against the current document: throws, or
returns the matched element if any. -/
abbrev SelEnv := String → Except String (Option Nat)

/-- One poll over the selector groups (the for-loop, lines 320-357):
groups in order, only the primary alternative of each; a throw during a
descriptor's evaluation is caught and counts as no match; the first
non-null element returns immediately. -/
def pollOnce (env : SelEnv) : List SelGroup → Option Nat
  | [] => none
  | g :: rest =>
    match primaryAlt g with
    | none => pollOnce env rest
    | some sel =>
      match env sel with
      | .error _ => pollOnce env rest
      | .ok none => pollOnce env rest
      | .ok (some e) => some e

/-- Number of polls the while-loop performs before giving up: polls run
at elapsed times 0, 100, 200, ... ms while elapsed < timeout. -/
def pollTimes (timeout : Nat) : Nat := (timeout + 99) / 100

/-- Result of findElement, together with how much polling it did. -/
structure FindResult where
  element : Option Nat
  polls : Nat
  elapsedMs : Nat
deriving DecidableEq, Repr

/-- The while-loop of findElement (lines 319-360), at poll number k with
the given number of polls remaining; each completed unsuccessful poll is
followed by `await delay(100)`. -/
def findLoop (env : Nat → SelEnv) (groups : List SelGroup) : Nat → Nat → FindResult
  | k, 0 => ⟨none, k, 100 * k⟩
  | k, fuel + 1 =>
    match pollOnce (env k) groups with
    | some e => ⟨some e, k + 1, 100 * k⟩
    | none => findLoop env groups (k + 1) fuel

/-- findElement (executor.js lines 312-363).  A null or empty selectors
list returns null before the clock even starts (lines 313-315); both are
the empty list here.  Otherwise poll until the timeout elapses and return
null on expiry. -/
def findElement (env : Nat → SelEnv) (groups : List SelGroup)
    (timeout : Nat := Config.elementTimeout) : FindResult :=
  if groups = [] then ⟨none, 0, 0⟩
  else findLoop env groups 0 (pollTimes timeout)

/-- A waitForElement step as the executor sees it: its selectors and the
timeout recorded for it by the parser (undefined when the recording had
none). -/
structure WaitStep where
  selectors : List SelGroup
  timeout : Option Nat
deriving DecidableEq, Repr

/-- handleWaitForElement (executor.js lines 281-284): resolve the
selectors with the fixed Config.elementTimeout and return normally.  The
first component is the handler's outcome (ok means no exception was
thrown); the second is the resolution it performed.  Note the source
neither passes step.timeout to findElement nor inspects the returned
element: it logs Element found and returns even when the result is
null. -/
def handleWaitForElement (env : Nat → SelEnv) (step : WaitStep) :
    Except String Unit × FindResult :=
  (Except.ok (), findElement env step.selectors Config.elementTimeout)

/-! ## Log retention: StorageManager.addLog (src/lib/storage.js lines 149-162)

The chrome.storage round trip is modelled by passing the stored log list
in and returning the list that is written back.  addLog prepends the new
entry (`logs.unshift(log)`), so the stored list is ordered newest first,
and then keeps the first maxLogs entries (`logs.slice(0, settings.maxLogs)`). -/

/-- DefaultSettings.maxLogs (src/lib/types.js). -/
def DefaultSettings.maxLogs : Nat := 100

/-- addLog: the log list written back to storage, given the previously
stored list (newest first) and the configured maximum. -/
def addLog (log : α) (logs : List α) (maxLogs : Nat := DefaultSettings.maxLogs) : List α :=
  (log :: logs).take maxLogs

/-! ## Schedule computation: setTaskSchedule (src/lib/storage.js lines 211-241)

Time is local-clock milliseconds with the epoch at a local midnight and a
fixed 86400000 ms day (no DST shift, matching what `setHours` /
`setDate(+1)` do on DST-free clocks).  `new Date()` is the argument now;
the chrome.alarms calls are returned as data. -/

def msPerMinute : Nat := 60000
def msPerHour : Nat := 3600000
def msPerDay : Nat := 86400000

/-- A task schedule record (types.js createTask: enabled, time, days). -/
structure Schedule where
  enabled : Bool
  time : String
  days : List Nat
deriving DecidableEq, Repr

/-- Split a character list at the colon separators, as `"str".split(":")`
does for the strings at hand. -/
def splitCharsOnColon : List Char → List (List Char)
  | [] => [[]]
  | c :: rest =>
    let r := splitCharsOnColon rest
    if c = ':' then [] :: r
    else
      match r with
      | [] => [[c]]
      | g :: gs => (c :: g) :: gs

/-- Digit value of a character, if it is a decimal digit. -/
def digitVal? (c : Char) : Option Nat :=
  if c.isDigit then some (c.toNat - 48) else none

/-- `Number(str)` restricted to nonempty strings of decimal digits; any
other string is treated as unparseable (the source would produce NaN and
an Invalid Date, outside this model). -/
def natOfChars (cs : List Char) : Option Nat :=
  match cs with
  | [] => none
  | _ => cs.foldl (fun acc c => do
      let a ← acc
      let d ← digitVal? c
      pure (a * 10 + d)) (some 0)

/-- Line 221: `const [hours, minutes] = schedule.time.split(":").map(Number)`,
keeping only the parseable case (both of the first two parts nonempty
digit strings). -/
def parseTime (s : String) : Option (Nat × Nat) :=
  match (splitCharsOnColon s.toList).map natOfChars with
  | some h :: some m :: _ => some (h, m)
  | _ => none

/-- The alarm handed to chrome.alarms.create (line 234). -/
structure AlarmInfo where
  triggerWhen : Nat
  periodInMinutes : Nat
deriving DecidableEq, Repr

/-- Observable effect of setTaskSchedule: the alarm was cleared, or an
alarm was created and nextRun returned. -/
inductive ScheduleEffect where
  | cleared : ScheduleEffect
  | alarmSet (info : AlarmInfo) (nextRun : Nat) : ScheduleEffect
deriving DecidableEq, Repr

/-- Today at the given hour and minute: `next.setHours(hours, minutes, 0, 0)`
applied to a Date holding now (valid for hour < 24, minute < 60). -/
def todayAt (now h m : Nat) : Nat :=
  now - now % msPerDay + h * msPerHour + m * msPerMinute

/-- setTaskSchedule (storage.js lines 211-241): disabled schedules clear
the alarm; otherwise the candidate instant is today at the parsed
hour/minute, advanced by one day unless strictly in the future
(line 229: `if (next <= now)`), and a daily alarm is created.  none is
the unparseable-time case (Invalid Date in the source, outside this
model). -/
def setTaskSchedule (schedule : Schedule) (now : Nat) : Option ScheduleEffect :=
  if !schedule.enabled then some .cleared
  else
    match parseTime schedule.time with
    | none => none
    | some (h, m) =>
      let candidate := todayAt now h m
      let next := if candidate ≤ now then candidate + msPerDay else candidate
      some (.alarmSet ⟨next, 24 * 60⟩ next)

/-! ## Recording normalization: RecorderParser (src/lib/parser.js)

parse takes a JSON string; `JSON.parse` either throws or yields a
JsValue, so parse is modelled on that outcome (Except String JsValue).
Everything inside the try block that throws is caught by the catch at
lines 45-51, which prefixes the message.  Console logging and the
SUPPORTED_TYPES warning (lines 83-85, a console.warn with no effect on
the result) are omitted. -/

/-- Whether `typeof v === "object"` holds (null, arrays and objects). -/
def isObjectType : JsValue → Bool
  | .null => true
  | .arr _ => true
  | .obj _ => true
  | _ => false

/-- The result record of validate: `{ valid, error? }`. -/
structure Validation where
  valid : Bool
  error : Option String
deriving DecidableEq, Repr

/-- The missing-kind message for the step at zero-based index i:
`步骤 ${i + 1} 缺少 type 属性` (parser.js line 79). -/
def missingKindMsg (i : Nat) : String :=
  "步骤 " ++ toString (i + 1) ++ " 缺少 type 属性"

/-- The for-loop of validate (parser.js lines 75-86) from zero-based step
index i: the first step whose type property is falsy yields the
missing-kind error; reading `.type` of a null step throws. -/
def validateSteps (i : Nat) : List JsValue → Except String Validation
  | [] => .ok ⟨true, none⟩
  | step :: rest => do
    let ty ← getPropE step "type"
    if !truthyOpt ty then .ok ⟨false, some (missingKindMsg i)⟩
    else validateSteps (i + 1) rest

/-- validate (parser.js lines 59-89): reject non-objects and falsy values
(`无效的 JSON 格式`), then a missing or non-array steps field
(`缺少 steps 数组`), then an empty steps array (`steps 数组为空`),
then scan the steps for a falsy type. -/
def validate (json : JsValue) : Except String Validation :=
  if !truthy json || !isObjectType json then .ok ⟨false, some "无效的 JSON 格式"⟩
  else
    match getProp json "steps" with
    | some (JsValue.arr l) =>
      if l.length = 0 then .ok ⟨false, some "steps 数组为空"⟩
      else validateSteps 0 l
    | _ => .ok ⟨false, some "缺少 steps 数组"⟩

/-- normalizeSelectors (parser.js lines 196-209): anything falsy or not
an array becomes []; otherwise each bare group is wrapped into a
one-element array and array groups pass through. -/
def normalizeSelectors (v : Option JsValue) : JsValue :=
  match v with
  | some (JsValue.arr groups) =>
    JsValue.arr (groups.map fun g =>
      match g with
      | JsValue.arr _ => g
      | x => JsValue.arr [x])
  | _ => JsValue.arr []

/-- transformStep (parser.js lines 120-189): build `{ type, index }`,
copy kind-specific fields (the switch at lines 127-178; the default case
is `Object.assign(transformed, step)`), then copy timeout when present
(`!== undefined`) and assertedEvents when truthy. -/
def transformStep (step : JsValue) (index : Nat) : Except String Obj := do
  let ty ← getPropE step "type"
  let base : Obj := setProp (assignOpt [] "type" ty) "index" (JsValue.num index)
  let withKind : Obj ←
    match ty with
    | some (JsValue.str "navigate") => do
      pure (assignOpt base "url" (← getPropE step "url"))
    | some (JsValue.str "click") | some (JsValue.str "doubleClick")
    | some (JsValue.str "hover") => do
      let o := setProp base "selectors" (normalizeSelectors (← getPropE step "selectors"))
      let o := assignOpt o "offsetX" (← getPropE step "offsetX")
      let o := assignOpt o "offsetY" (← getPropE step "offsetY")
      pure (assignOpt o "button" (← getPropE step "button"))
    | some (JsValue.str "change") => do
      let o := setProp base "selectors" (normalizeSelectors (← getPropE step "selectors"))
      pure (assignOpt o "value" (← getPropE step "value"))
    | some (JsValue.str "keyDown") | some (JsValue.str "keyUp") => do
      pure (assignOpt base "key" (← getPropE step "key"))
    | some (JsValue.str "scroll") => do
      let o := assignOpt base "x" (← getPropE step "x")
      let o := assignOpt o "y" (← getPropE step "y")
      let sv ← getPropE step "selectors"
      pure (setProp o "selectors"
        (if truthyOpt sv then normalizeSelectors sv else JsValue.null))
    | some (JsValue.str "waitForElement") => do
      let o := setProp base "selectors" (normalizeSelectors (← getPropE step "selectors"))
      let o := assignOpt o "timeout" (← getPropE step "timeout")
      pure (assignOpt o "visible" (← getPropE step "visible"))
    | some (JsValue.str "waitForExpression") => do
      let o := assignOpt base "expression" (← getPropE step "expression")
      pure (assignOpt o "timeout" (← getPropE step "timeout"))
    | some (JsValue.str "setViewport") => do
      let o := assignOpt base "width" (← getPropE step "width")
      let o := assignOpt o "height" (← getPropE step "height")
      let o := assignOpt o "deviceScaleFactor" (← getPropE step "deviceScaleFactor")
      pure (assignOpt o "isMobile" (← getPropE step "isMobile"))
    | _ =>
      match step with
      | JsValue.obj fields =>
        pure (fields.foldl (fun o kv => setProp o kv.1 kv.2) base)
      | _ => pure base
  let tv ← getPropE step "timeout"
  let withTimeout :=
    match tv with
    | some v => setProp withKind "timeout" v
    | none => withKind
  let ae ← getPropE step "assertedEvents"
  match ae with
  | some v =>
    if truthy v then pure (setProp withTimeout "assertedEvents" v)
    else pure withTimeout
  | none => pure withTimeout

/-- The predicate of the find at parser.js line 217:
`s.type === "navigate"`. -/
def isNavStep (s : Obj) : Bool :=
  match lookupProp s "type" with
  | some (JsValue.str t) => t = "navigate"
  | _ => false

/-- extractStartUrl (parser.js lines 216-219): the url of the first
normalized step whose type is the string navigate, with
`navigateStep?.url || null` collapsing a missing step, a missing url and
a falsy url all to null (none). -/
def extractStartUrl (steps : List Obj) : Option JsValue :=
  match steps.find? isNavStep with
  | none => none
  | some s =>
    match lookupProp s "url" with
    | some u => if truthy u then some u else none
    | none => none

/-- The record returned by transform (parser.js lines 106-111). -/
structure TaskDoc where
  title : JsValue
  startUrl : Option JsValue
  steps : List Obj
  originalJson : JsValue

/-- transform (parser.js lines 96-112): title is `json.title || ""`, the
steps are mapped through transformStep with their indices, and startUrl
is derived from the normalized steps.  Calling `.map` on a steps field
that is not an array throws (unreachable after validate). -/
def transform (json : JsValue) : Except String TaskDoc := do
  let tv ← getPropE json "title"
  let title := if truthyOpt tv then tv.getD (JsValue.str "") else JsValue.str ""
  match ← getPropE json "steps" with
  | some (JsValue.arr l) =>
    let steps ← l.enum.mapM (fun p => transformStep p.2 p.1)
    pure ⟨title, extractStartUrl steps, steps, json⟩
  | _ => .error "TypeError: json.steps.map is not a function"

/-- The result record of parse: `{ success, data?, error? }`. -/
structure ParseResult where
  success : Bool
  data : Option TaskDoc
  error : Option String

/-- parse (parser.js lines 29-52), taking the outcome of
`JSON.parse(jsonString)` (which throws or yields a value).  Everything
thrown inside the try block, including the JSON.parse throw itself, is
caught at lines 45-51 and prefixed with `JSON 解析失败: `; a failed
validation returns its message unprefixed. -/
def parse (jsonParsed : Except String JsValue) : ParseResult :=
  match jsonParsed with
  | .error msg => ⟨false, none, some ("JSON 解析失败: " ++ msg)⟩
  | .ok json =>
    match (do
      let v ← validate json
      if v.valid then
        let d ← transform json
        pure (⟨true, some d, none⟩ : ParseResult)
      else
        pure (⟨false, none, v.error⟩ : ParseResult)) with
    | .error msg => ⟨false, none, some ("JSON 解析失败: " ++ msg)⟩
    | .ok res => res

/-! ## Helper lemmas about the run loop -/

theorem execIndices_append (a b : List Event) :
    execIndices (a ++ b) = execIndices a ++ execIndices b := by
  induction a with
  | nil => rfl
  | cons e t ih => cases e <;> simp [execIndices, ih]

theorem countDelays_append (a b : List Event) :
    countDelays (a ++ b) = countDelays a + countDelays b := by
  induction a with
  | nil => simp [countDelays]
  | cons e t ih =>
    cases e with
    | exec i => simp [countDelays, ih]
    | stepDelay =>
      simp [countDelays, ih]
      omega

theorem range_map_shift (n i : Nat) :
    (List.range (n + 1)).map (i + ·) = i :: (List.range n).map ((i + 1) + ·) := by
  rw [List.range_succ_eq_map, List.map_cons, List.map_map]
  refine congrArg₂ List.cons (by omega) ?_
  apply List.map_congr_left
  intro a _
  simp [Function.comp]
  omega

theorem filter_isOk_of_no_err (steps : List StepResult) (h : steps.any isErr = false) :
    steps.filter isOk = steps := by
  induction steps with
  | nil => rfl
  | cons r rest ih =>
    cases r with
    | ok => simp only [List.any_cons, Bool.or_eq_false_iff] at h
            simp [List.filter, isOk, ih h.2]
    | err m => simp [List.any_cons, isErr] at h

/-- Characterization of the loop under the continue policy: every step is
attempted, completed counts the successes, and the failure flags reflect
whether any step failed. -/
theorem execLoop_continue (steps : List StepResult) (i : Nat) :
    (execLoop "continue" i steps).completed = (steps.filter isOk).length ∧
    (execLoop "continue" i steps).hasFailedSteps = steps.any isErr ∧
    (execLoop "continue" i steps).lastError.isSome = steps.any isErr ∧
    execIndices (execLoop "continue" i steps).trace
      = (List.range steps.length).map (i + ·) := by
  induction steps generalizing i with
  | nil => simp [execLoop, execIndices]
  | cons r rest ih =>
    obtain ⟨h1, h2, h3, h4⟩ := ih (i + 1)
    cases r with
    | ok =>
      refine ⟨by simp [execLoop, h1, List.filter, isOk], ?_, ?_, ?_⟩
      · simp [execLoop, h2, isErr]
      · simp [execLoop, h3, isErr]
      · simp only [execLoop, List.length_cons, range_map_shift]
        rcases rest with _ | ⟨s, t⟩ <;>
          simp [execIndices_append, execIndices, h4]
    | err msg =>
      have hc : (("continue" : String) = "continue") := rfl
      refine ⟨?_, ?_, ?_, ?_⟩
      · simp [execLoop, h1, List.filter, isOk]
      · simp [execLoop, isErr]
      · simp only [execLoop, if_pos hc]
        cases hle : (execLoop "continue" (i + 1) rest).lastError <;>
          simp [List.any_cons, isErr]
      · simp only [execLoop, if_pos hc, List.length_cons, range_map_shift]
        simp [execIndices, h4]

/-- Characterization of the loop under the stop policy when some step
fails: exactly the steps up to and including the first failure run,
completed counts the successes before it, and the error is recorded. -/
theorem execLoop_stop (steps : List StepResult) (k i : Nat)
    (h : firstFailIdx steps = some k) :
    (execLoop "stop" i steps).completed = k ∧
    (execLoop "stop" i steps).lastError.isSome = true ∧
    execIndices (execLoop "stop" i steps).trace
      = (List.range (k + 1)).map (i + ·) := by
  have hne : ¬ (("stop" : String) = "continue") := by decide
  induction steps generalizing i k with
  | nil => simp [firstFailIdx] at h
  | cons r rest ih =>
    cases r with
    | err msg =>
      simp only [firstFailIdx, isErr, if_pos] at h
      obtain rfl : (0 : Nat) = k := Option.some.inj h
      refine ⟨by simp [execLoop, hne], by simp [execLoop, hne], ?_⟩
      simp [execLoop, hne, execIndices, List.range_succ]
    | ok =>
      simp only [firstFailIdx, isErr, Bool.false_eq_true, if_false, Option.map_eq_some'] at h
      obtain ⟨k2, hk2, rfl⟩ := h
      obtain ⟨h1, h2, h3⟩ := ih k2 (i + 1) hk2
      have hrest : ¬ rest.isEmpty := by
        cases rest with
        | nil => simp [firstFailIdx] at hk2
        | cons a b => simp
      refine ⟨?_, ?_, ?_⟩
      · simp [execLoop, h1]
      · simp [execLoop, h2]
      · have htr : (execLoop "stop" i (StepResult.ok :: rest)).trace
            = (if rest.isEmpty then [Event.exec i] else [Event.exec i, Event.stepDelay])
              ++ (execLoop "stop" (i + 1) rest).trace := rfl
        rw [htr, if_neg hrest, execIndices_append, h3, range_map_shift (k2 + 1) i]
        rfl

/-- Delays under the continue policy: one per successful non-final step,
none after a failed step. -/
theorem execLoop_continue_delays (steps : List StepResult) (i : Nat) :
    countDelays (execLoop "continue" i steps).trace
      = (steps.dropLast.filter isOk).length := by
  induction steps generalizing i with
  | nil => simp [execLoop, countDelays]
  | cons r rest ih =>
    cases rest with
    | nil =>
      have htr : (execLoop "continue" i [r]).trace = [Event.exec i] := by
        cases r <;> rfl
      rw [htr]
      cases r <;> simp [countDelays, List.dropLast]
    | cons s t =>
      have ih2 := ih (i + 1)
      cases r with
      | ok =>
        have htr : (execLoop "continue" i (StepResult.ok :: s :: t)).trace
            = [Event.exec i, Event.stepDelay] ++ (execLoop "continue" (i + 1) (s :: t)).trace :=
          rfl
        rw [htr, countDelays_append, ih2]
        simp [countDelays, List.dropLast, List.filter, isOk, Nat.add_comm]
      | err msg =>
        have htr : (execLoop "continue" i (StepResult.err msg :: s :: t)).trace
            = Event.exec i :: (execLoop "continue" (i + 1) (s :: t)).trace := rfl
        rw [htr]
        show countDelays (execLoop "continue" (i + 1) (s :: t)).trace = _
        rw [ih2]
        simp [List.dropLast, List.filter, isOk]

/-! ## Claim theorems: the replay runner -/

/-- C1 counterexample: for steps = [click(fails), change(succeeds)] under
the continue policy the code returns completedSteps = 1 while totalSteps
= 2 (the claim states completedSteps = totalSteps = 2): completedSteps
counts only successful steps, because `completedSteps++` sits in the try
block and is skipped when the step throws. -/
theorem c1_counterexample :
    (executeSteps [StepResult.err "找不到点击目标元素", StepResult.ok] "continue").status
      = "partial" ∧
    (executeSteps [StepResult.err "找不到点击目标元素", StepResult.ok] "continue").completedSteps
      = 1 ∧
    (executeSteps [StepResult.err "找不到点击目标元素", StepResult.ok] "continue").totalSteps
      = 2 ∧
    (executeSteps [StepResult.err "找不到点击目标元素", StepResult.ok] "continue").completedSteps
      ≠ (executeSteps [StepResult.err "找不到点击目标元素", StepResult.ok] "continue").totalSteps := by
  refine ⟨rfl, rfl, rfl, by decide⟩

/-- C1 (amended): for every step list under the continue policy, every
step is attempted (the executed indices are exactly 0..N-1), totalSteps
is the list length, status is partial iff at least one step failed and
success otherwise, and completedSteps equals the number of successful
steps (not totalSteps). -/
theorem c1_theorem (steps : List StepResult) :
    execIndices (execTrace steps "continue") = List.range steps.length ∧
    (executeSteps steps "continue").totalSteps = steps.length ∧
    (executeSteps steps "continue").status
      = (if steps.any isErr then "partial" else "success") ∧
    (executeSteps steps "continue").completedSteps = (steps.filter isOk).length := by
  obtain ⟨h1, h2, h3, h4⟩ := execLoop_continue steps 0
  refine ⟨?_, rfl, ?_, h1⟩
  · rw [execTrace, h4]
    simp
  · show (let s := execLoop "continue" 0 steps
          if s.lastError.isSome && ("continue" == "stop") then "failed"
          else if s.hasFailedSteps then "partial"
          else if s.completed < steps.length then "partial"
          else "success") = _
    simp only [h2, h1, h3]
    cases he : steps.any isErr with
    | true => simp
    | false =>
      have hf := filter_isOk_of_no_err steps he
      simp [hf]

/-- C2: for every step list under the stop policy whose first failing
step has index k, the outcome has completedSteps = k, status failed
(also when the failure is on the last step), totalSteps = length, and
exactly the steps 0..k were executed. -/
theorem c2_theorem (steps : List StepResult) (k : Nat)
    (h : firstFailIdx steps = some k) :
    (executeSteps steps "stop").completedSteps = k ∧
    (executeSteps steps "stop").status = "failed" ∧
    (executeSteps steps "stop").totalSteps = steps.length ∧
    execIndices (execTrace steps "stop") = List.range (k + 1) := by
  obtain ⟨h1, h2, h3⟩ := execLoop_stop steps k 0 h
  refine ⟨h1, ?_, rfl, ?_⟩
  · show (let s := execLoop "stop" 0 steps
          if s.lastError.isSome && ("stop" == "stop") then "failed"
          else if s.hasFailedSteps then "partial"
          else if s.completed < steps.length then "partial"
          else "success") = _
    simp [h2]
  · rw [execTrace, h3]
    simp

/-- C2 witness: steps = [ok, fails, ok] under stop: first failure at
index 1, outcome completedSteps 1, status failed, totalSteps 3, executed
indices [0, 1]. -/
theorem c2_witness :
    (executeSteps [StepResult.ok, StepResult.err "boom", StepResult.ok] "stop").completedSteps
      = 1 ∧
    (executeSteps [StepResult.ok, StepResult.err "boom", StepResult.ok] "stop").status
      = "failed" ∧
    (executeSteps [StepResult.ok, StepResult.err "boom", StepResult.ok] "stop").totalSteps
      = 3 ∧
    execIndices (execTrace [StepResult.ok, StepResult.err "boom", StepResult.ok] "stop")
      = List.range 2 :=
  c2_theorem [StepResult.ok, StepResult.err "boom", StepResult.ok] 1 (by decide)

/-- C5 counterexample: under the continue policy with steps =
[fails, succeeds], no inter-step delay occurs between the failed step 0
and step 1 (the `continue` statement skips the delay), while the
all-success run of two steps does delay between them. -/
theorem c5_counterexample :
    Event.stepDelay ∉ execTrace [StepResult.err "找不到点击目标元素", StepResult.ok] "continue" ∧
    execTrace [StepResult.ok, StepResult.ok] "continue"
      = [Event.exec 0, Event.stepDelay, Event.exec 1] := by
  refine ⟨by decide, rfl⟩

/-- C5 (amended): under the continue policy the number of inter-step
pacing delays equals the number of successful non-final steps: a failed
step proceeds to the next step immediately, skipping the pacing delay
that follows a successful non-final step. -/
theorem c5_theorem (steps : List StepResult) :
    countDelays (execTrace steps "continue") = (steps.dropLast.filter isOk).length :=
  execLoop_continue_delays steps 0

/-! ## Claim theorems: selector resolution and waitForElement -/

/-- C4: per-poll resolution semantics of findElement: (1) the first group
whose primary alternative matches wins immediately, without evaluating
later groups; (2) a descriptor that throws during evaluation counts as no
match for that poll and resolution moves to the next group; (3) a poll
depends only on the primary alternative of each group (other alternatives
are never evaluated); (4) an empty selector-group list resolves
immediately to not-found with zero polls and zero elapsed time. -/
theorem c4_theorem :
    (∀ (env : SelEnv) (g : SelGroup) (rest : List SelGroup) (sel : String) (e : Nat),
      primaryAlt g = some sel → env sel = .ok (some e) →
      pollOnce env (g :: rest) = some e) ∧
    (∀ (env : SelEnv) (g : SelGroup) (rest : List SelGroup) (sel msg : String),
      primaryAlt g = some sel → env sel = .error msg →
      pollOnce env (g :: rest) = pollOnce env rest) ∧
    (∀ (env : SelEnv) (gs gs2 : List SelGroup),
      gs.map primaryAlt = gs2.map primaryAlt →
      pollOnce env gs = pollOnce env gs2) ∧
    (∀ (env : Nat → SelEnv) (timeout : Nat),
      findElement env [] timeout = ⟨none, 0, 0⟩) := by
  refine ⟨?_, ?_, ?_, ?_⟩
  · intro env g rest sel e hp he
    simp [pollOnce, hp, he]
  · intro env g rest sel msg hp he
    simp [pollOnce, hp, he]
  · intro env gs gs2 h
    induction gs generalizing gs2 with
    | nil =>
      cases gs2 with
      | nil => rfl
      | cons g2 t2 => simp at h
    | cons g t ih =>
      cases gs2 with
      | nil => simp at h
      | cons g2 t2 =>
        simp only [List.map_cons, List.cons.injEq] at h
        obtain ⟨h1, h2⟩ := h
        simp only [pollOnce, h1, ih t2 h2]
  · intro env timeout
    simp [findElement]

/-- C4 witness: a concrete environment where the descriptor `#hit`
matches element 7 and `#bad` throws, instantiating each conjunct. -/
def c4Env : SelEnv := fun sel =>
  if sel = "#bad" then .error "SyntaxError: invalid selector"
  else if sel = "#hit" then .ok (some 7)
  else .ok none

theorem c4_witness :
    pollOnce c4Env [SelGroup.group ["#hit", "#never-tried"], SelGroup.single "#other"]
      = some 7 ∧
    pollOnce c4Env [SelGroup.single "#bad", SelGroup.single "#hit"]
      = pollOnce c4Env [SelGroup.single "#hit"] ∧
    pollOnce c4Env [SelGroup.group ["#hit", "#alt-a"]]
      = pollOnce c4Env [SelGroup.group ["#hit", "#alt-b"]] ∧
    findElement (fun _ => c4Env) [] 10000 = ⟨none, 0, 0⟩ :=
  ⟨c4_theorem.1 c4Env _ _ "#hit" 7 rfl rfl,
   c4_theorem.2.1 c4Env _ _ "#bad" "SyntaxError: invalid selector" rfl rfl,
   c4_theorem.2.2.1 c4Env _ _ rfl,
   c4_theorem.2.2.2 (fun _ => c4Env) 10000⟩

/-- Environment in which no descriptor ever matches. -/
def c3Env : Nat → SelEnv := fun _ _ => Except.ok none

/-- A waitForElement step whose recording carried its own 5000 ms
timeout and whose selector never matches. -/
def c3Step : WaitStep := ⟨[SelGroup.group ["#missing"]], some 5000⟩

/-- C3: evaluation of handleWaitForElement at a step whose selector never
matches and whose own timeout is 5000 ms.  The handler resolves with the
fixed default Config.elementTimeout (polling 100 times, the 10000 ms
budget, not the 50 polls its own 5000 ms would give), and returns
normally (no TargetNotFound) even though no element was found: the claim
(and the spec at 4.3) says the step resolves with its own timeout and
raises a failure on timeout, so the code is the bug. -/
theorem c3_theorem :
    (handleWaitForElement c3Env c3Step).1 = Except.ok () ∧
    (handleWaitForElement c3Env c3Step).2.element = none ∧
    (handleWaitForElement c3Env c3Step).2.polls = pollTimes Config.elementTimeout ∧
    c3Step.timeout = some 5000 ∧
    pollTimes Config.elementTimeout = 100 ∧
    pollTimes 5000 = 50 := by
  refine ⟨rfl, by decide, by decide, rfl, rfl, rfl⟩

/-! ## Claim theorems: schedule computation -/

/-- C6: for every enabled schedule with a parseable time-of-day h:m
(h < 24, m < 60) and every now: the candidate instant lies on the same
day as now at exactly h hours m minutes; when the candidate is strictly
after now the alarm fires at it, otherwise (including equality) the alarm
fires one day later (the following day); the repeat period is fixed at
24 * 60 minutes; and a disabled schedule clears the pending alarm
instead. -/
theorem c6_theorem (sched : Schedule) (now h m : Nat)
    (henabled : sched.enabled = true)
    (hparse : parseTime sched.time = some (h, m))
    (hh : h < 24) (hm : m < 60) :
    todayAt now h m / msPerDay = now / msPerDay ∧
    todayAt now h m % msPerDay = h * msPerHour + m * msPerMinute ∧
    (now < todayAt now h m →
      setTaskSchedule sched now
        = some (.alarmSet ⟨todayAt now h m, 24 * 60⟩ (todayAt now h m))) ∧
    (todayAt now h m ≤ now →
      setTaskSchedule sched now
        = some (.alarmSet ⟨todayAt now h m + msPerDay, 24 * 60⟩
            (todayAt now h m + msPerDay)) ∧
      (todayAt now h m + msPerDay) / msPerDay = now / msPerDay + 1) ∧
    (∀ s2 : Schedule, s2.enabled = false → setTaskSchedule s2 now = some .cleared) := by
  have hbound : h * msPerHour + m * msPerMinute < msPerDay := by
    simp only [msPerHour, msPerMinute, msPerDay]
    omega
  refine ⟨?_, ?_, ?_, ?_, ?_⟩
  · simp only [todayAt, msPerDay] at hbound ⊢
    omega
  · simp only [todayAt, msPerDay, msPerHour, msPerMinute] at hbound ⊢
    omega
  · intro hlt
    simp only [setTaskSchedule, henabled, Bool.not_true, Bool.false_eq_true, if_false, hparse]
    rw [if_neg (by omega)]
  · intro hle
    refine ⟨?_, ?_⟩
    · simp only [setTaskSchedule, henabled, Bool.not_true, Bool.false_eq_true, if_false, hparse]
      rw [if_pos hle]
    · simp only [todayAt, msPerDay] at hbound ⊢
      omega
  · intro s2 hs2
    simp [setTaskSchedule, hs2]

/-- C6 witness: schedule 09:00 enabled, evaluated at 08:00 of some day
(now = 28800000 ms): the alarm is created for 09:00 the same day
(32400000 ms) with a 1440-minute period; and a disabled schedule clears
the alarm. -/
theorem c6_witness :
    setTaskSchedule ⟨true, "09:00", [1, 2, 3, 4, 5]⟩ 28800000
      = some (.alarmSet ⟨32400000, 24 * 60⟩ 32400000) ∧
    setTaskSchedule ⟨false, "09:00", [1, 2, 3, 4, 5]⟩ 28800000 = some .cleared := by
  have h := c6_theorem ⟨true, "09:00", [1, 2, 3, 4, 5]⟩ 28800000 9 0 rfl (by decide)
    (by decide) (by decide)
  have heq : todayAt 28800000 9 0 = 32400000 := by decide
  refine ⟨?_, h.2.2.2.2 _ rfl⟩
  have h3 := h.2.2.1 (by decide)
  rw [heq] at h3
  exact h3

/-! ## Claim theorems: log retention -/

/-- C9: for every appended entry, prior newest-first log list and
positive configured maximum: the written list is the new entry followed
by the newest maxLogs - 1 prior entries, its length never exceeds
maxLogs, and what is dropped is exactly the tail of oldest entries (the
written list followed by the dropped suffix reassembles the full
newest-first list). -/
theorem c9_theorem {α : Type} (log : α) (logs : List α) (maxLogs : Nat)
    (h : 0 < maxLogs) :
    addLog log logs maxLogs = log :: logs.take (maxLogs - 1) ∧
    (addLog log logs maxLogs).length ≤ maxLogs ∧
    addLog log logs maxLogs ++ logs.drop (maxLogs - 1) = log :: logs := by
  obtain ⟨n, rfl⟩ : ∃ n, maxLogs = n + 1 := ⟨maxLogs - 1, by omega⟩
  refine ⟨?_, ?_, ?_⟩
  · simp [addLog]
  · simp only [addLog, List.length_take, List.length_cons]
    omega
  · simp [addLog, List.take_append_drop]

/-- C9 witness: appending entry 9 to the stored list [1, 2, 3] with
maximum 2 keeps [9, 1]: at most 2 entries, the new entry first, the
oldest entries 2 and 3 dropped. -/
theorem c9_witness :
    addLog 9 [1, 2, 3] 2 = 9 :: [1, 2, 3].take 1 ∧
    (addLog 9 [1, 2, 3] 2).length ≤ 2 ∧
    addLog 9 [1, 2, 3] 2 ++ [1, 2, 3].drop 1 = 9 :: [1, 2, 3] :=
  c9_theorem 9 [1, 2, 3] 2 (by decide)

/-! ## Claim theorems: parse never throws -/

theorem validateSteps_invalid_error (l : List JsValue) (i : Nat) (v : Validation)
    (h : validateSteps i l = .ok v) (hv : v.valid = false) : ∃ m, v.error = some m := by
  induction l generalizing i with
  | nil =>
    simp only [validateSteps] at h
    obtain rfl := Except.ok.inj h
    simp at hv
  | cons step rest ih =>
    simp only [validateSteps] at h
    rcases hty : getPropE step "type" with m | ty
    · rw [hty] at h
      simp only [bind, Except.bind] at h
      cases h
    · rw [hty] at h
      simp only [bind, Except.bind] at h
      by_cases htr : truthyOpt ty = true
      · rw [if_neg (by simp [htr])] at h
        exact ih (i + 1) h
      · rw [if_pos (by simpa using htr)] at h
        obtain rfl := Except.ok.inj h
        exact ⟨_, rfl⟩

theorem validate_invalid_error (json : JsValue) (v : Validation)
    (h : validate json = .ok v) (hv : v.valid = false) : ∃ m, v.error = some m := by
  simp only [validate] at h
  split at h
  · obtain rfl := Except.ok.inj h
    exact ⟨_, rfl⟩
  · split at h
    · split at h
      · obtain rfl := Except.ok.inj h
        exact ⟨_, rfl⟩
      · exact validateSteps_invalid_error _ 0 v h hv
    · obtain rfl := Except.ok.inj h
      exact ⟨_, rfl⟩

/-- C10: for every outcome of JSON.parse on the input string (a thrown
error or a decoded value of any shape), parse returns a plain result
record with a success flag: either success with data and no error, or
failure with an error message and no data.  Every exception thrown
inside the try block is caught; parse never propagates one. -/
theorem c10_theorem (r : Except String JsValue) :
    (∃ d, parse r = ⟨true, some d, none⟩) ∨ (∃ e, parse r = ⟨false, none, some e⟩) := by
  cases r with
  | error msg => exact Or.inr ⟨_, rfl⟩
  | ok json =>
    rcases hv : validate json with m | v
    · right
      refine ⟨"JSON 解析失败: " ++ m, ?_⟩
      simp [parse, hv, bind, Except.bind]
    · by_cases hval : v.valid = true
      · rcases ht : transform json with m2 | d
        · right
          refine ⟨"JSON 解析失败: " ++ m2, ?_⟩
          simp [parse, hv, ht, hval, bind, Except.bind]
        · left
          refine ⟨d, ?_⟩
          simp [parse, hv, ht, hval, bind, Except.bind, pure, Except.pure]
      · right
        obtain ⟨m2, hm2⟩ := validate_invalid_error json v hv (by simpa using hval)
        refine ⟨m2, ?_⟩
        simp [parse, hv, hval, hm2, bind, Except.bind, pure, Except.pure]

/-! ## Claim theorems: startUrl derivation -/

theorem find?_append_of_all_neg {p : Obj → Bool} (pre rest : List Obj)
    (h : ∀ t ∈ pre, p t = false) :
    (pre ++ rest).find? p = rest.find? p := by
  induction pre with
  | nil => rfl
  | cons a t ih =>
    have ha : ¬ p a = true := by simp [h a (by simp)]
    rw [List.cons_append, List.find?_cons_of_neg _ ha]
    exact ih (fun x hx => h x (by simp [hx]))

/-- C7 counterexample: the valid document
`{steps: [{type: "navigate", url: ""}]}` normalizes to a step list whose
first (navigate) step has url field "" — but startUrl is null, not ""
(`navigateStep?.url || null` maps the falsy empty string to null), so
startUrl does not equal the url field of the first navigate step. -/
def c7Doc : JsValue :=
  JsValue.obj [("steps", JsValue.arr
    [JsValue.obj [("type", JsValue.str "navigate"), ("url", JsValue.str "")]])]

theorem c7_counterexample :
    validate c7Doc = Except.ok ⟨true, none⟩ ∧
    (transform c7Doc).map TaskDoc.steps = Except.ok
      [[("type", JsValue.str "navigate"), ("index", JsValue.num 0),
        ("url", JsValue.str "")]] ∧
    (transform c7Doc).map TaskDoc.startUrl = Except.ok none := by
  refine ⟨rfl, rfl, rfl⟩

/-- C7 (amended): startUrl equals the url field of the first navigate
step when that field is present and truthy; it is null (none) when no
navigate step exists or when the first navigate step's url is absent or
falsy (such as the empty string); and the startUrl produced by transform
is exactly this derivation over its normalized steps. -/
theorem c7_theorem :
    (∀ steps : List Obj, (∀ t ∈ steps, isNavStep t = false) →
      extractStartUrl steps = none) ∧
    (∀ (pre post : List Obj) (s : Obj) (u : JsValue),
      (∀ t ∈ pre, isNavStep t = false) → isNavStep s = true →
      lookupProp s "url" = some u → truthy u = true →
      extractStartUrl (pre ++ s :: post) = some u) ∧
    (∀ (pre post : List Obj) (s : Obj),
      (∀ t ∈ pre, isNavStep t = false) → isNavStep s = true →
      (lookupProp s "url" = none ∨ ∃ u, lookupProp s "url" = some u ∧ truthy u = false) →
      extractStartUrl (pre ++ s :: post) = none) ∧
    (∀ (json : JsValue) (d : TaskDoc), transform json = Except.ok d →
      d.startUrl = extractStartUrl d.steps) := by
  have hfind : ∀ (pre post : List Obj) (s : Obj),
      (∀ t ∈ pre, isNavStep t = false) → isNavStep s = true →
      (pre ++ s :: post).find? isNavStep = some s := by
    intro pre post s hpre hs
    rw [find?_append_of_all_neg pre _ hpre, List.find?_cons_of_pos _ hs]
  refine ⟨?_, ?_, ?_, ?_⟩
  · intro steps h
    have : steps.find? isNavStep = none :=
      List.find?_eq_none.mpr (fun x hx => by simp [h x hx])
    simp [extractStartUrl, this]
  · intro pre post s u hpre hs hurl hu
    simp [extractStartUrl, hfind pre post s hpre hs, hurl, hu]
  · intro pre post s hpre hs hurl
    rcases hurl with h0 | ⟨u, hu, hfalse⟩
    · simp [extractStartUrl, hfind pre post s hpre hs, h0]
    · simp [extractStartUrl, hfind pre post s hpre hs, hu, hfalse]
  · intro json d h
    simp only [transform] at h
    rcases ht : getPropE json "title" with m | tv
    · rw [ht] at h
      simp only [bind, Except.bind] at h
      cases h
    · rw [ht] at h
      simp only [bind, Except.bind] at h
      rcases hs : getPropE json "steps" with m | sv
      · rw [hs] at h
        simp only [bind, Except.bind] at h
        cases h
      · rw [hs] at h
        simp only [bind, Except.bind] at h
        split at h
        · split at h
          · cases h
          · simp only [pure, Except.pure] at h
            obtain rfl := Except.ok.inj h
            rfl
        · cases h

/-- C7 witness: a normalized step list whose second step is the first
navigate step with truthy url "https://x" yields startUrl "https://x". -/
theorem c7_witness :
    extractStartUrl
      [[("type", JsValue.str "click"), ("index", JsValue.num 0)],
       [("type", JsValue.str "navigate"), ("index", JsValue.num 1),
        ("url", JsValue.str "https://x")]]
      = some (JsValue.str "https://x") :=
  c7_theorem.2.1 [[("type", JsValue.str "click"), ("index", JsValue.num 0)]] []
    [("type", JsValue.str "navigate"), ("index", JsValue.num 1),
     ("url", JsValue.str "https://x")]
    (JsValue.str "https://x") (by intro t ht; simp at ht; subst ht; rfl) rfl rfl rfl

/-! ## Claim theorems: validation error classification -/

/-- The three malformed-document messages produced by validate
(parser.js lines 62, 67, 71). -/
def malformedMsgs : List String :=
  ["无效的 JSON 格式", "缺少 steps 数组", "steps 数组为空"]

/-- Modelled from the claim wording, for comparison with validate: the
structural malformed-document condition — the input is not a record,
lacks an array steps field, or that array is empty. -/
def specMalformed (json : JsValue) : Bool :=
  match json with
  | .obj _ =>
    match getProp json "steps" with
    | some (.arr l) => l.isEmpty
    | _ => true
  | _ => true

theorem missingKindMsg_data (i : Nat) :
    (missingKindMsg i).data
      = '步' :: '骤' :: ' ' :: ((toString (i + 1)).data ++ " 缺少 type 属性".data) := by
  show ("步骤 " ++ toString (i + 1) ++ " 缺少 type 属性").data = _
  rw [String.data_append, String.data_append, List.append_assoc]
  rfl

/-- A missing-kind message is never one of the malformed-document
messages (their first characters differ). -/
theorem missingKindMsg_notin (i : Nat) : missingKindMsg i ∉ malformedMsgs := by
  intro hmem
  simp only [malformedMsgs, List.mem_cons, List.not_mem_nil, or_false] at hmem
  rcases hmem with h | h | h
  all_goals
    have hd := congrArg String.data h
    rw [missingKindMsg_data] at hd
    have hh := congrArg List.head? hd
    rw [List.head?_cons] at hh
    exact absurd hh (by decide)

/-- Every step-scan result is success, a missing-kind failure, or a
thrown error. -/
theorem validateSteps_cases (l : List JsValue) (i : Nat) :
    validateSteps i l = .ok ⟨true, none⟩ ∨
    (∃ j, validateSteps i l = .ok ⟨false, some (missingKindMsg j)⟩) ∨
    (∃ m, validateSteps i l = .error m) := by
  induction l generalizing i with
  | nil => exact Or.inl rfl
  | cons step rest ih =>
    simp only [validateSteps]
    rcases getPropE step "type" with m | ty
    · simp only [bind, Except.bind]
      exact Or.inr (Or.inr ⟨m, rfl⟩)
    · simp only [bind, Except.bind]
      by_cases h : truthyOpt ty = true
      · rw [if_neg (by simp [h])]
        exact ih (i + 1)
      · rw [if_pos (by simpa using h)]
        exact Or.inr (Or.inl ⟨i, rfl⟩)

theorem getPropE_of_ne_null (v : JsValue) (key : String) (h : v ≠ JsValue.null) :
    getPropE v key = .ok (getProp v key) := by
  cases v with
  | null => exact absurd rfl h
  | bool b => rfl
  | num n => rfl
  | str s => rfl
  | arr xs => rfl
  | obj fields => rfl

/-- On a null-free step list, the scan succeeds iff every step has a
truthy type, and produces a missing-kind failure iff some step has a
falsy (missing) type. -/
theorem validateSteps_no_null (l : List JsValue) (i : Nat)
    (hnull : JsValue.null ∉ l) :
    ((∃ j, validateSteps i l = .ok ⟨false, some (missingKindMsg j)⟩)
       ↔ ∃ step ∈ l, truthyOpt (getProp step "type") = false) ∧
    (validateSteps i l = .ok ⟨true, none⟩
       ↔ ∀ step ∈ l, truthyOpt (getProp step "type") = true) := by
  induction l generalizing i with
  | nil =>
    constructor
    · simp [validateSteps]
    · simp [validateSteps]
  | cons step rest ih =>
    have hstep : step ≠ JsValue.null := by
      intro h
      exact hnull (h ▸ List.mem_cons_self step rest)
    have hget := getPropE_of_ne_null step "type" hstep
    simp only [validateSteps, hget, bind, Except.bind]
    by_cases h : truthyOpt (getProp step "type") = true
    · rw [if_neg (by simp [h])]
      obtain ⟨ih1, ih2⟩ := ih (i + 1) (fun hx => hnull (List.mem_cons_of_mem _ hx))
      constructor
      · rw [ih1]
        constructor
        · rintro ⟨s, hs, hfalse⟩
          exact ⟨s, List.mem_cons_of_mem _ hs, hfalse⟩
        · rintro ⟨s, hs, hfalse⟩
          rcases List.mem_cons.mp hs with rfl | hs2
          · rw [h] at hfalse
            cases hfalse
          · exact ⟨s, hs2, hfalse⟩
      · rw [ih2]
        constructor
        · intro hall s hs
          rcases List.mem_cons.mp hs with rfl | hs2
          · exact h
          · exact hall s hs2
        · intro hall s hs
          exact hall s (List.mem_cons_of_mem _ hs)
    · rw [if_pos (by simpa using h)]
      constructor
      · constructor
        · intro _
          exact ⟨step, List.mem_cons_self _ _, by simpa using h⟩
        · intro _
          exact ⟨i, rfl⟩
      · constructor
        · intro heq
          have := Except.ok.inj heq
          simp at this
        · intro hall
          exact absurd (hall step (List.mem_cons_self _ _)) (by simpa using h)

/-- C8 counterexample: the document `{steps: [null]}` has a (null)
action that lacks a kind discriminator, yet validation does not produce
the missing-kind error: reading `.type` of null throws, and parse
surfaces the TypeError as a generic parse failure whose message is
neither the missing-kind message nor a malformed-document message. -/
def c8Doc : JsValue := JsValue.obj [("steps", JsValue.arr [JsValue.null])]

theorem c8_counterexample :
    truthyOpt (getProp JsValue.null "type") = false ∧
    validate c8Doc = Except.error "TypeError: Cannot read properties of null" ∧
    parse (Except.ok c8Doc)
      = ⟨false, none,
         some ("JSON 解析失败: " ++ "TypeError: Cannot read properties of null")⟩ ∧
    ("JSON 解析失败: " ++ "TypeError: Cannot read properties of null") ≠ missingKindMsg 0 ∧
    ("JSON 解析失败: " ++ "TypeError: Cannot read properties of null") ∉ malformedMsgs := by
  refine ⟨rfl, rfl, rfl, by decide, by decide⟩

/-- C8 (amended): validation fails with a malformed-document error
exactly when the input is not a record, lacks an array steps field, or
that array is empty; on a record whose nonempty steps array contains no
null entry, it fails with a missing-kind error iff some action has a
falsy type and validates successfully iff every action has a truthy
type.  (A null action instead makes the scan throw; parse reports that
as a generic parse failure, per the counterexample.) -/
theorem c8_theorem :
    (∀ json : JsValue,
      (∃ m ∈ malformedMsgs, validate json = .ok ⟨false, some m⟩)
        ↔ specMalformed json = true) ∧
    (∀ (json : JsValue) (l : List JsValue),
      getProp json "steps" = some (JsValue.arr l) → l ≠ [] → JsValue.null ∉ l →
      (((∃ j, validate json = .ok ⟨false, some (missingKindMsg j)⟩)
          ↔ ∃ step ∈ l, truthyOpt (getProp step "type") = false) ∧
       (validate json = .ok ⟨true, none⟩
          ↔ ∀ step ∈ l, truthyOpt (getProp step "type") = true))) := by
  constructor
  · intro json
    cases json with
    | null => exact iff_of_true ⟨"无效的 JSON 格式", by decide, rfl⟩ rfl
    | bool b =>
      cases b
      · exact iff_of_true ⟨"无效的 JSON 格式", by decide, rfl⟩ rfl
      · exact iff_of_true ⟨"无效的 JSON 格式", by decide, rfl⟩ rfl
    | num n =>
      have hv : validate (JsValue.num n) = .ok ⟨false, some "无效的 JSON 格式"⟩ := by
        simp [validate, isObjectType]
      exact iff_of_true ⟨"无效的 JSON 格式", by decide, hv⟩ rfl
    | str s2 =>
      have hv : validate (JsValue.str s2) = .ok ⟨false, some "无效的 JSON 格式"⟩ := by
        simp [validate, isObjectType]
      exact iff_of_true ⟨"无效的 JSON 格式", by decide, hv⟩ rfl
    | arr xs =>
      have hv : validate (JsValue.arr xs) = .ok ⟨false, some "缺少 steps 数组"⟩ := by
        simp [validate, isObjectType, truthy, getProp]
      exact iff_of_true ⟨"缺少 steps 数组", by decide, hv⟩ rfl
    | obj fields =>
      rcases hsteps : lookupProp fields "steps" with _ | v
      · have hv : validate (JsValue.obj fields) = .ok ⟨false, some "缺少 steps 数组"⟩ := by
          simp [validate, isObjectType, truthy, getProp, hsteps]
        have hspec : specMalformed (JsValue.obj fields) = true := by
          simp [specMalformed, getProp, hsteps]
        exact iff_of_true ⟨"缺少 steps 数组", by decide, hv⟩ hspec
      · cases v with
        | arr l =>
          cases l with
          | nil =>
            have hv : validate (JsValue.obj fields) = .ok ⟨false, some "steps 数组为空"⟩ := by
              simp [validate, isObjectType, truthy, getProp, hsteps]
            have hspec : specMalformed (JsValue.obj fields) = true := by
              simp [specMalformed, getProp, hsteps]
            exact iff_of_true ⟨"steps 数组为空", by decide, hv⟩ hspec
          | cons a t =>
            have hspec : specMalformed (JsValue.obj fields) = false := by
              simp [specMalformed, getProp, hsteps]
            have hv : validate (JsValue.obj fields) = validateSteps 0 (a :: t) := by
              simp [validate, isObjectType, truthy, getProp, hsteps]
            refine iff_of_false ?_ (by simp [hspec])
            rintro ⟨m, hm, hval⟩
            rw [hv] at hval
            rcases validateSteps_cases (a :: t) 0 with hc | ⟨j, hc⟩ | ⟨m2, hc⟩
            · rw [hc] at hval
              have := Except.ok.inj hval
              simp at this
            · rw [hc] at hval
              have hmm : missingKindMsg j = m := by
                have h2 := Except.ok.inj hval
                simpa using h2
              exact missingKindMsg_notin j (hmm ▸ hm)
            · rw [hc] at hval
              cases hval
        | null =>
          have hv : validate (JsValue.obj fields) = .ok ⟨false, some "缺少 steps 数组"⟩ := by
            simp [validate, isObjectType, truthy, getProp, hsteps]
          have hspec : specMalformed (JsValue.obj fields) = true := by
            simp [specMalformed, getProp, hsteps]
          exact iff_of_true ⟨"缺少 steps 数组", by decide, hv⟩ hspec
        | bool b =>
          have hv : validate (JsValue.obj fields) = .ok ⟨false, some "缺少 steps 数组"⟩ := by
            simp [validate, isObjectType, truthy, getProp, hsteps]
          have hspec : specMalformed (JsValue.obj fields) = true := by
            simp [specMalformed, getProp, hsteps]
          exact iff_of_true ⟨"缺少 steps 数组", by decide, hv⟩ hspec
        | num n =>
          have hv : validate (JsValue.obj fields) = .ok ⟨false, some "缺少 steps 数组"⟩ := by
            simp [validate, isObjectType, truthy, getProp, hsteps]
          have hspec : specMalformed (JsValue.obj fields) = true := by
            simp [specMalformed, getProp, hsteps]
          exact iff_of_true ⟨"缺少 steps 数组", by decide, hv⟩ hspec
        | str s2 =>
          have hv : validate (JsValue.obj fields) = .ok ⟨false, some "缺少 steps 数组"⟩ := by
            simp [validate, isObjectType, truthy, getProp, hsteps]
          have hspec : specMalformed (JsValue.obj fields) = true := by
            simp [specMalformed, getProp, hsteps]
          exact iff_of_true ⟨"缺少 steps 数组", by decide, hv⟩ hspec
        | obj f2 =>
          have hv : validate (JsValue.obj fields) = .ok ⟨false, some "缺少 steps 数组"⟩ := by
            simp [validate, isObjectType, truthy, getProp, hsteps]
          have hspec : specMalformed (JsValue.obj fields) = true := by
            simp [specMalformed, getProp, hsteps]
          exact iff_of_true ⟨"缺少 steps 数组", by decide, hv⟩ hspec
  · intro json l hsteps hne hnull
    cases json with
    | obj fields =>
      have hl : lookupProp fields "steps" = some (JsValue.arr l) := hsteps
      cases l with
      | nil => exact absurd rfl hne
      | cons a t =>
        have hv : validate (JsValue.obj fields) = validateSteps 0 (a :: t) := by
          simp [validate, isObjectType, truthy, getProp, hl]
        rw [hv]
        exact validateSteps_no_null (a :: t) 0 hnull
    | null => simp [getProp] at hsteps
    | bool b => simp [getProp] at hsteps
    | num n => simp [getProp] at hsteps
    | str s2 => simp [getProp] at hsteps
    | arr xs => simp [getProp] at hsteps

/-- C8 witness: the empty-steps document fails with a
malformed-document message, and a well-formed one-click document
validates successfully. -/
theorem c8_witness :
    (∃ m ∈ malformedMsgs,
      validate (JsValue.obj [("steps", JsValue.arr [])]) = Except.ok ⟨false, some m⟩) ∧
    validate (JsValue.obj [("steps",
        JsValue.arr [JsValue.obj [("type", JsValue.str "click")]])])
      = Except.ok ⟨true, none⟩ :=
  ⟨(c8_theorem.1 (JsValue.obj [("steps", JsValue.arr [])])).mpr rfl,
   ((c8_theorem.2 (JsValue.obj [("steps",
       JsValue.arr [JsValue.obj [("type", JsValue.str "click")]])])
     [JsValue.obj [("type", JsValue.str "click")]]
     rfl (List.cons_ne_nil _ _) (by simp)).2).mpr
     (by intro step hstep
         simp only [List.mem_singleton] at hstep
         subst hstep
         rfl)⟩

end FlowRunner
